import Mathlib

/-!
# Verification of the NeuroLinker decision-memory core

Shallow embedding of the AI-context projector, the reflection-service
wrapper and the privacy gate of the NeuroLinker repository
(`main.py`, `reflection_gemini.py`), together with theorems settling the
specification claims about them.

Python strings are modelled as Lean `String` (the application only
manipulates whole characters, so `s[:n]` is `take n` on the character
list and `s.lower()` is a character-wise `toLower`).  Python lists are
Lean `List`.  The external Gemini call is a value of an explicit result
type, so that the `try/except` logic becomes a total function.
-/

namespace NeuroLinker

/-! ## Data model (spec section 3; dataclasses live in `decision_memory.py`) -/

/-- Privacy partition of a decision (`MemoryLayer` enum). -/
inductive MemoryLayer
  | PRIVATE
  | SHAREABLE
deriving DecidableEq, Repr

/-- A limiting factor on a decision (`Constraint` value object). -/
structure Constraint where
  category : String
  description : String
  severity : String
deriving DecidableEq, Repr

/-- A considered-and-rejected option (`Alternative` value object). -/
structure Alternative where
  option : String
  pros : List String
  cons : List String
  rejected_reason : String
deriving DecidableEq, Repr

/-- The central `Decision` entity, with the fields used by `main.py`. -/
structure Decision where
  id : String
  title : String
  description : String
  goal : String
  constraints : List Constraint
  alternatives : List Alternative
  final_choice : String
  reasoning : String
  expected_outcome : Option String
  memory_layer : MemoryLayer
  tags : List String
  related_decisions : List String
  outcome_status : Option String
  reflection : Option String
  created_at : String
deriving DecidableEq, Repr

/-! ## Python primitives -/

/-- Python slice `s[:n]` on a string. -/
def strTake (s : String) (n : Nat) : String := ⟨s.data.take n⟩

/-- Python `s.lower()` (character-wise; coincides on the ASCII strings
the application produces). -/
def strLower (s : String) : String := ⟨s.data.map Char.toLower⟩

/-- Python slice `l[-n:]` for `n > 0`: the last `n` elements
(the whole list when it is shorter than `n`). -/
def lastN (n : Nat) (l : List α) : List α := l.drop (l.length - n)

/-- Python `sep.join(l)`. -/
def pyJoin (sep : String) : List String → String
  | [] => ""
  | [x] => x
  | x :: y :: rest => x ++ sep ++ pyJoin sep (y :: rest)

/-- Python rendering of an optional string inside an f-string
(`None` prints as `"None"`). -/
def pyShowOpt : Option String → String
  | some s => s
  | none => "None"

/-- Decider for `pat` being a prefix of `l` (character lists). -/
def charsPrefixB : List Char → List Char → Bool
  | [], _ => true
  | _ :: _, [] => false
  | a :: as, b :: bs => a == b && charsPrefixB as bs

/-- Decider for `pat` occurring inside `l` (character lists). -/
def charsContainB (pat : List Char) : List Char → Bool
  | [] => charsPrefixB pat []
  | c :: cs => charsPrefixB pat (c :: cs) || charsContainB pat cs

/-- Python `pat in s` (substring test on strings). -/
def containsB (s pat : String) : Bool := charsContainB pat.data s.data

/-- `pat` occurs inside `s` as a contiguous substring. -/
def ContainsS (s pat : String) : Prop :=
  ∃ a b : List Char, s.data = a ++ pat.data ++ b

/-! ## Decision memory store (only the operation the claims need) -/

/-- Modelled from the spec: `DecisionMemoryStore.get_all_decisions` from
`decision_memory.py`, which is not part of the sources.  Spec section 4.1:
`list(layer_filter: optional)` returns all decisions, most-recently-created
first, optionally restricted to one privacy layer.  A store state is the
ordered sequence that `list()` returns. -/
def get_all_decisions (store : List Decision) (layer : Option MemoryLayer) : List Decision :=
  match layer with
  | none => store
  | some l => store.filter (fun d => d.memory_layer = l)

/-! ## AI context projector (`main.py` lines 792-826) -/

/-- The per-decision lines appended by the loop
`for i, decision in enumerate(decisions[-5:], 1)` of
`_get_decisions_summary`, starting at index `i`. -/
def enumLines (i : Nat) : List Decision → List String
  | [] => []
  | d :: ds =>
    ("\nDecision " ++ toString i ++ ": " ++ d.title) ::
    ("Goal: " ++ d.goal) ::
    ("Choice: " ++ d.final_choice) ::
    ("Reasoning: " ++ strTake d.reasoning 200 ++ "...") ::
    enumLines (i + 1) ds

/-- `_get_decisions_summary` (`main.py` lines 792-805). -/
def _get_decisions_summary (decisions : List Decision) : String :=
  if decisions = [] then
    "No decisions recorded yet."
  else
    pyJoin "\n"
      (("Total decisions: " ++ toString decisions.length ++ "\n") ::
        enumLines 1 (lastN 5 decisions))

/-- The dictionary key
`f"{constraint.category} (Severity: {constraint.severity})"`. -/
def constraintKey (c : Constraint) : String :=
  c.category ++ " (Severity: " ++ c.severity ++ ")"

/-- One step of `constraint_patterns[key] = constraint_patterns.get(key, 0) + 1`
on an insertion-ordered dictionary, modelled as an association list:
an existing key is bumped in place, a new key is appended at the end. -/
def bump (key : String) : List (String × Nat) → List (String × Nat)
  | [] => [(key, 1)]
  | (k, n) :: rest => if k = key then (k, n + 1) :: rest else (k, n) :: bump key rest

/-- The `constraint_patterns` dictionary built by the nested loops of
`_get_constraints_summary` (`main.py` lines 813-817). -/
def constraintPatterns (decisions : List Decision) : List (String × Nat) :=
  decisions.foldl
    (fun acc d => d.constraints.foldl (fun acc c => bump (constraintKey c) acc) acc)
    []

/-- Stable insertion step for descending order on the count: the new
element goes in front of every element whose count does not exceed it. -/
def insertDesc (x : String × Nat) : List (String × Nat) → List (String × Nat)
  | [] => [x]
  | y :: ys => if y.2 ≤ x.2 then x :: y :: ys else y :: insertDesc x ys

/-- Python `sorted(items, key=lambda x: x[1], reverse=True)`: a stable
sort, descending on the count, ties kept in dictionary (first-encountered)
order.  Insertion sort with `insertDesc` realises exactly that. -/
def sortDescByCount (l : List (String × Nat)) : List (String × Nat) :=
  l.foldr insertDesc []

/-- The bullet line `f"• {constraint}: appears {count} times"`. -/
def bulletLine (p : String × Nat) : String :=
  "• " ++ p.1 ++ ": appears " ++ toString p.2 ++ " times"

/-- `_get_constraints_summary` (`main.py` lines 808-826). -/
def _get_constraints_summary (decisions : List Decision) : String :=
  if decisions = [] then
    "No constraints recorded yet."
  else
    let patterns := constraintPatterns decisions
    if patterns = [] then
      "No constraint patterns found."
    else
      pyJoin "\n"
        ("Your most common constraints:" ::
          ((sortDescByCount patterns).take 5).map bulletLine)

/-- The context pair handed to `set_user_context` by `render_ai_insights`
(`main.py` lines 663 and 682-684): both summaries are computed from
`get_all_decisions()` with no layer filter. -/
def ai_insights_context (store : List Decision) : String × String :=
  let decisions := get_all_decisions store none
  (_get_decisions_summary decisions, _get_constraints_summary decisions)

/-! ## Reflection service (`reflection_gemini.py`) and its caller -/

/-- Outcome of the external `generate_content` call inside the `try`
block: either the returned text, or the message of a raised exception. -/
inductive GenCall
  | ok (text : String)
  | raised (msg : String)
deriving DecidableEq, Repr

/-- `GeminiReflectionAI.reflect` (`reflection_gemini.py` lines 18-28).
`api_key` is `none` when the constructor ran with `enabled=False` or
found no `GEMINI_API_KEY`; `call` is the behaviour of the external model
call, which `reflect` wraps in `try/except`. -/
def reflect (enabled : Bool) (api_key : Option String) (call : GenCall) : String :=
  if !enabled || api_key.isNone then
    "Reflection AI disabled or API key missing."
  else
    match call with
    | .ok text => text
    | .raised msg => "Reflection AI failed: " ++ msg

/-- How `render_decision_detail` presents the string returned by the
reflection service (`main.py` lines 611-625). -/
inductive ReflectionOutcome
  | offered (text : String)
  | shownAsError (text : String)
deriving DecidableEq, Repr

/-- The branch `if "failed" not in ai_reflection.lower():` of
`render_decision_detail`: the reflection is offered as a usable insight
(with the option to append it) unless it contains `"failed"`
case-insensitively, in which case it is displayed as an error. -/
def handle_ai_reflection (ai_reflection : String) : ReflectionOutcome :=
  if containsB (strLower ai_reflection) "failed" = false then
    .offered ai_reflection
  else
    .shownAsError ai_reflection

/-- The labelled lines of the f-string `decision_history_text` of
`render_decision_detail` (`main.py` lines 594-604), in source order. -/
def dhtSegments (d : Decision) (draft : String) : List String :=
  [ "Decision: " ++ d.title,
    "Goal: " ++ d.goal,
    "Description: " ++ d.description,
    "Final Choice: " ++ d.final_choice,
    "Reasoning: " ++ d.reasoning,
    "Expected Outcome: " ++ pyShowOpt d.expected_outcome,
    "Constraints: " ++ pyJoin ", " (d.constraints.map Constraint.description),
    "Alternatives Considered: " ++ pyJoin ", " (d.alternatives.map Alternative.option),
    "Reflection: " ++ draft ]

/-- The f-string `decision_history_text` of `render_decision_detail`
(`main.py` lines 594-604), sent to the reflection service; `draft` is the
`new_reflection` text-area content.  The f-string is a newline- and
indentation-separated sequence of labelled lines, rendered here by
joining `dhtSegments` with the separator the source literal contains
(a newline followed by the eight spaces of source indentation). -/
def decision_history_text (d : Decision) (draft : String) : String :=
  "\n        " ++ pyJoin "\n        " (dhtSegments d draft) ++ "\n        "

/-! ## The frequency table of `_get_constraints_summary` -/

/-- The stream of dictionary keys in the order the nested loops of
`_get_constraints_summary` encounter them. -/
def keyOccs : List Decision → List String
  | [] => []
  | d :: ds => d.constraints.map constraintKey ++ keyOccs ds

/-- Number of occurrences of a key in a key stream. -/
def occCount (k : String) : List String → Nat
  | [] => 0
  | x :: xs => (if x = k then 1 else 0) + occCount k xs

/-- Folding `bump` over a key stream, as the dictionary loop does. -/
def buildTable (occs : List String) : List (String × Nat) :=
  occs.foldl (fun acc k => bump k acc) []

/-- The distinct keys of a stream, in first-encountered order. -/
def dedupFirst (l : List String) : List String :=
  l.foldl (fun seen k => if k ∈ seen then seen else seen ++ [k]) []

/-- Count recorded in an association table for a key (first match). -/
def tblCount (k : String) : List (String × Nat) → Nat
  | [] => 0
  | (k₀, n) :: rest => if k₀ = k then n else tblCount k rest

/-! ## Concrete instances for counterexamples and witnesses -/

/-- A decision template with every free-text field blank. -/
def blankDecision : Decision where
  id := ""
  title := ""
  description := ""
  goal := ""
  constraints := []
  alternatives := []
  final_choice := ""
  reasoning := ""
  expected_outcome := none
  memory_layer := .SHAREABLE
  tags := []
  related_decisions := []
  outcome_status := none
  reflection := none
  created_at := ""

example :
    _get_decisions_summary [{ blankDecision with title := "T", goal := "G", final_choice := "C", reasoning := "short" }]
      = "Total decisions: 1\n\n\nDecision 1: T\nGoal: G\nChoice: C\nReasoning: short..." := by
  decide

example :
    _get_constraints_summary
        [{ blankDecision with constraints := [⟨"Time", "d1", "High"⟩, ⟨"Cost", "d2", "Low"⟩, ⟨"Time", "d3", "High"⟩] }]
      = "Your most common constraints:\n• Time (Severity: High): appears 2 times\n• Cost (Severity: Low): appears 1 times" := by
  decide

example :
    decision_history_text
        { blankDecision with
            title := "T", goal := "G", description := "D", final_choice := "FC",
            reasoning := "R",
            constraints := [⟨"Time", "c1", "High"⟩, ⟨"Cost", "c2", "Low"⟩],
            alternatives := [⟨"a1", [], [], "r1"⟩] }
        "ref"
      = "\n        Decision: T\n        Goal: G\n        Description: D\n        Final Choice: FC\n        Reasoning: R\n        Expected Outcome: None\n        Constraints: c1, c2\n        Alternatives Considered: a1\n        Reflection: ref\n        " := by
  rfl

/-- A PRIVATE decision with recognisable content. -/
def privDecision : Decision :=
  { blankDecision with
      title := "PRIVATE-TITLE", goal := "PG", final_choice := "PC", reasoning := "PR",
      memory_layer := .PRIVATE,
      constraints := [⟨"Emotional", "private matter", "High"⟩] }

/-- A SHAREABLE decision. -/
def sharedDecision : Decision :=
  { blankDecision with title := "ST", goal := "SG", final_choice := "SC", reasoning := "SR" }

/-- A six-decision store whose most recent decision (list order is
most-recently-created first) carries a distinctive title. -/
def sixStore : List Decision :=
  { blankDecision with title := "TITLE-ZERO" } :: List.replicate 5 blankDecision

/-- The same store with a different most-recent decision. -/
def sixStoreAlt : List Decision :=
  { blankDecision with title := "TITLE-OTHER" } :: List.replicate 5 blankDecision

/-- A decision whose reasoning is far below the 200-character budget. -/
def shortReasoningDecision : Decision :=
  { blankDecision with title := "T", goal := "G", final_choice := "C", reasoning := "short" }

/-- Two decisions whose constraints produce a tie-free frequency table
with more than one key. -/
def tieStore : List Decision :=
  [ { blankDecision with constraints := [⟨"Time", "t", "High"⟩, ⟨"Cost", "c", "Low"⟩] },
    { blankDecision with constraints := [⟨"Cost", "c2", "Low"⟩] } ]

/-- A fully-populated decision for the reflection-text witness. -/
def c9Decision : Decision :=
  { blankDecision with
      title := "T9", goal := "G9", description := "D9", final_choice := "F9",
      reasoning := "R9", expected_outcome := some "E9",
      constraints := [⟨"Risk", "CDESC", "Medium"⟩],
      alternatives := [⟨"ALT-OPTION", [], [], "why"⟩] }

/-! ## Quick sanity examples (removed content lives in theorems below) -/

example : strTake "hello" 3 = "hel" := by decide
example : containsB "the failed call" "failed" = true := by decide
example : lastN 2 [1, 2, 3, 4] = [3, 4] := by decide
example : pyJoin ", " ["a", "b", "c"] = "a, b, c" := by decide

/-! ## String lemmas -/

theorem str_data_append (s t : String) : (s ++ t).data = s.data ++ t.data := by
  cases s; cases t; rfl

theorem containsS_self (s : String) : ContainsS s s :=
  ⟨[], [], by simp⟩

theorem containsS_app_left {s x : String} (t : String) (h : ContainsS s x) :
    ContainsS (s ++ t) x := by
  obtain ⟨a, b, hab⟩ := h
  exact ⟨a, b ++ t.data, by simp [str_data_append, hab]⟩

theorem containsS_app_right {t x : String} (s : String) (h : ContainsS t x) :
    ContainsS (s ++ t) x := by
  obtain ⟨a, b, hab⟩ := h
  exact ⟨s.data ++ a, b, by simp [str_data_append, hab]⟩

/-- A right-nested concatenation contains the join of its first two parts. -/
theorem containsS_pre2 (x y r : String) : ContainsS (x ++ (y ++ r)) (x ++ y) :=
  ⟨[], r.data, by simp [str_data_append]⟩

theorem containsS_trans {s m x : String} (h₁ : ContainsS s m) (h₂ : ContainsS m x) :
    ContainsS s x := by
  obtain ⟨a, b, hab⟩ := h₁
  obtain ⟨c, d, hcd⟩ := h₂
  exact ⟨a ++ c, d ++ b, by simp [hab, hcd]⟩

theorem pyJoin_cons₂ (sep x y : String) (rest : List String) :
    pyJoin sep (x :: y :: rest) = x ++ (sep ++ pyJoin sep (y :: rest)) := by
  simp [pyJoin, String.append_assoc]

/-- Every element of the joined list occurs inside `sep.join(l)`. -/
theorem containsS_pyJoin {x : String} (sep : String) :
    ∀ {l : List String}, x ∈ l → ContainsS (pyJoin sep l) x
  | [], h => absurd h (List.not_mem_nil x)
  | [y], h => by
      rcases List.mem_singleton.mp h with rfl
      exact containsS_self x
  | y :: z :: rest, h => by
      rw [pyJoin_cons₂]
      rcases List.mem_cons.mp h with rfl | h
      · exact containsS_app_left _ (containsS_self x)
      · exact containsS_app_right _ (containsS_app_right _ (containsS_pyJoin sep h))

/-! ## Correctness of the substring decider -/

theorem charsPrefixB_iff : ∀ (p l : List Char),
    charsPrefixB p l = true ↔ ∃ t, l = p ++ t
  | [], l => by simp [charsPrefixB]
  | a :: as, [] => by simp [charsPrefixB]
  | a :: as, b :: bs => by
      rw [show charsPrefixB (a :: as) (b :: bs) = (a == b && charsPrefixB as bs) from rfl]
      simp only [Bool.and_eq_true, beq_iff_eq, charsPrefixB_iff as bs,
        List.cons_append, List.cons.injEq]
      constructor
      · rintro ⟨rfl, t, rfl⟩
        exact ⟨t, rfl, rfl⟩
      · rintro ⟨t, rfl, rfl⟩
        exact ⟨rfl, t, rfl⟩

theorem charsContainB_iff (p : List Char) : ∀ (l : List Char),
    charsContainB p l = true ↔ ∃ a b, l = a ++ p ++ b
  | [] => by
      constructor
      · intro h
        obtain ⟨t, ht⟩ := (charsPrefixB_iff p []).mp h
        exact ⟨[], t, ht⟩
      · rintro ⟨a, b, hab⟩
        have hp : p = [] := by
          rcases List.append_eq_nil.mp hab.symm with ⟨h₁, -⟩
          exact (List.append_eq_nil.mp h₁).2
        simp [charsContainB, hp, charsPrefixB]
  | c :: cs => by
      constructor
      · intro h
        rcases Bool.or_eq_true_iff.mp (by simpa [charsContainB] using h) with h | h
        · obtain ⟨t, ht⟩ := (charsPrefixB_iff p (c :: cs)).mp h
          exact ⟨[], t, by simp [ht]⟩
        · obtain ⟨a, b, hab⟩ := (charsContainB_iff p cs).mp h
          exact ⟨c :: a, b, by simp [hab]⟩
      · rintro ⟨a, b, hab⟩
        match a, hab with
        | [], hab =>
            have : charsPrefixB p (c :: cs) = true :=
              (charsPrefixB_iff p (c :: cs)).mpr ⟨b, by simpa using hab⟩
            simp [charsContainB, this]
        | a₀ :: as, hab =>
            have hcs : cs = as ++ p ++ b := by
              have := hab
              simp only [List.cons_append, List.cons_eq_cons] at this
              exact this.2
            have : charsContainB p cs = true :=
              (charsContainB_iff p cs).mpr ⟨as, b, hcs⟩
            simp [charsContainB, this]

/-- The Boolean substring test decides `ContainsS`. -/
theorem containsB_iff (s pat : String) : containsB s pat = true ↔ ContainsS s pat := by
  simpa [containsB, ContainsS] using charsContainB_iff pat.data s.data

/-! ## Lemmas about the decisions summary -/

theorem strTake_length (s : String) (n : Nat) :
    (strTake s n).length = min n s.length := by
  cases s
  simp [strTake, String.length]

theorem strTake_of_le {s : String} {n : Nat} (h : s.length ≤ n) :
    strTake s n = s := by
  cases s with
  | mk data =>
    simp only [strTake, String.length] at *
    exact congrArg String.mk (List.take_of_length_le h)

/-- The four lines emitted for the `i`-th decision (0-based) of the
enumerated window, whose loop counter starts at `j`. -/
theorem enumLines_get : ∀ (l : List Decision) (j i : Nat) (h : i < l.length),
    ("\nDecision " ++ toString (j + i) ++ ": " ++ (l.get ⟨i, h⟩).title) ∈ enumLines j l
    ∧ ("Goal: " ++ (l.get ⟨i, h⟩).goal) ∈ enumLines j l
    ∧ ("Choice: " ++ (l.get ⟨i, h⟩).final_choice) ∈ enumLines j l
    ∧ ("Reasoning: " ++ strTake (l.get ⟨i, h⟩).reasoning 200 ++ "...") ∈ enumLines j l
  | [], _, i, h => absurd h (by simp)
  | d :: ds, j, 0, h => by
      simp [enumLines]
  | d :: ds, j, i + 1, h => by
      have h' : i < ds.length := by simpa using h
      have ih := enumLines_get ds (j + 1) i h'
      have harith : j + 1 + i = j + (i + 1) := by omega
      rw [harith] at ih
      refine ⟨?_, ?_, ?_, ?_⟩ <;>
        · simp only [enumLines, List.get_cons_succ, List.mem_cons]
          tauto

/-! ## Lemmas for the frequency table of `_get_constraints_summary` -/

theorem constraints_foldl_eq_keys (cs : List Constraint) :
    ∀ acc, cs.foldl (fun a c => bump (constraintKey c) a) acc
      = (cs.map constraintKey).foldl (fun a k => bump k a) acc := by
  induction cs with
  | nil => intro acc; rfl
  | cons c cs ih => intro acc; simp [List.foldl_cons, ih]

theorem constraintPatterns_foldl (ds : List Decision) :
    ∀ acc, ds.foldl
        (fun acc d => d.constraints.foldl (fun acc c => bump (constraintKey c) acc) acc)
        acc
      = (keyOccs ds).foldl (fun a k => bump k a) acc := by
  induction ds with
  | nil => intro acc; rfl
  | cons d ds ih =>
      intro acc
      rw [List.foldl_cons, ih, constraints_foldl_eq_keys,
        show keyOccs (d :: ds) = d.constraints.map constraintKey ++ keyOccs ds from rfl,
        List.foldl_append]

/-- `constraintPatterns` is the `bump`-fold over the encountered keys. -/
theorem constraintPatterns_eq_buildTable (ds : List Decision) :
    constraintPatterns ds = buildTable (keyOccs ds) :=
  constraintPatterns_foldl ds []

theorem bump_map_fst (t : String) : ∀ (acc : List (String × Nat)),
    (bump t acc).map Prod.fst
      = if t ∈ acc.map Prod.fst then acc.map Prod.fst else acc.map Prod.fst ++ [t]
  | [] => by simp [bump]
  | (k, n) :: rest => by
      by_cases hk : k = t
      · subst hk
        simp [bump]
      · have := bump_map_fst t rest
        by_cases ht : t ∈ rest.map Prod.fst <;>
          simp [bump, hk, Ne.symm hk, this, ht]

theorem bump_tblCount (q t : String) : ∀ (acc : List (String × Nat)),
    tblCount q (bump t acc) = tblCount q acc + (if q = t then 1 else 0)
  | [] => by
      by_cases h : q = t
      · simp [bump, tblCount, h]
      · simp [bump, tblCount, h, Ne.symm h]
  | (k, n) :: rest => by
      have ih := bump_tblCount q t rest
      by_cases hk : k = t
      · subst hk
        by_cases hq : k = q
        · subst hq
          simp [bump, tblCount]
        · have hqk : ¬ q = k := fun h => hq h.symm
          simp [bump, tblCount, hq, hqk]
      · by_cases hq : k = q
        · have hqt : ¬ q = t := fun h => hk (hq.trans h)
          simp [bump, tblCount, hk, hq, hqt]
        · simp [bump, tblCount, hk, hq, ih]

theorem bump_pos (t : String) : ∀ (acc : List (String × Nat)),
    (∀ p ∈ acc, 0 < p.2) → ∀ p ∈ bump t acc, 0 < p.2
  | [], _ => by simp [bump]
  | (k, n) :: rest, h => by
      by_cases hk : k = t
      · subst hk
        intro p hp
        rcases List.mem_cons.mp (by simpa [bump] using hp) with rfl | hp
        · simp
        · exact h p (List.mem_cons_of_mem _ hp)
      · intro p hp
        rcases List.mem_cons.mp (by simpa [bump, hk] using hp) with rfl | hp
        · exact h (k, n) (List.mem_cons_self _ _)
        · exact bump_pos t rest (fun p hp => h p (List.mem_cons_of_mem _ hp)) p hp

theorem mem_table_iff : ∀ {acc : List (String × Nat)},
    (acc.map Prod.fst).Nodup → ∀ (q : String) (n : Nat),
      ((q, n) ∈ acc ↔ q ∈ acc.map Prod.fst ∧ n = tblCount q acc)
  | [], _, q, n => by simp [tblCount]
  | (k, m) :: rest, hnd, q, n => by
      have hnd₂ : (k :: rest.map Prod.fst).Nodup := by simpa using hnd
      have hnd' : (rest.map Prod.fst).Nodup := (List.nodup_cons.mp hnd₂).2
      have hknot : k ∉ rest.map Prod.fst := (List.nodup_cons.mp hnd₂).1
      constructor
      · intro h
        rcases List.mem_cons.mp h with h | h
        · injection h with h₁ h₂
          subst h₁
          subst h₂
          simp [tblCount]
        · have hres := ((mem_table_iff hnd') q n).mp h
          have hkq : ¬ k = q := fun hkq => hknot (hkq ▸ hres.1)
          refine ⟨by simp [hres.1], ?_⟩
          simp [tblCount, hkq, hres.2]
      · rintro ⟨hmem, hn⟩
        by_cases hkq : k = q
        · subst hkq
          simp only [tblCount, if_pos rfl] at hn
          subst hn
          exact List.mem_cons_self _ _
        · have hmem₂ : q ∈ k :: rest.map Prod.fst := by simpa using hmem
          have hq : q ∈ rest.map Prod.fst := by
            rcases List.mem_cons.mp hmem₂ with h | h
            · exact absurd h.symm hkq
            · exact h
          have hn' : n = tblCount q rest := by simpa [tblCount, hkq] using hn
          exact List.mem_cons_of_mem _ (((mem_table_iff hnd') q n).mpr ⟨hq, hn'⟩)

theorem foldl_bump_tblCount (q : String) : ∀ (occs : List String) (acc : List (String × Nat)),
    tblCount q (occs.foldl (fun a k => bump k a) acc) = tblCount q acc + occCount q occs
  | [], acc => by simp [occCount]
  | t :: occs, acc => by
      rw [List.foldl_cons, foldl_bump_tblCount q occs (bump t acc), bump_tblCount]
      by_cases h : q = t
      · simp [occCount, h]
        omega
      · simp [occCount, h, Ne.symm h]

theorem foldl_bump_map_fst : ∀ (occs : List String) (acc : List (String × Nat)),
    (occs.foldl (fun a k => bump k a) acc).map Prod.fst
      = occs.foldl (fun seen k => if k ∈ seen then seen else seen ++ [k]) (acc.map Prod.fst)
  | [], acc => rfl
  | t :: occs, acc => by
      rw [List.foldl_cons, foldl_bump_map_fst occs (bump t acc), bump_map_fst, List.foldl_cons]

theorem dedup_step_nodup (seen : List String) (k : String) (h : seen.Nodup) :
    (if k ∈ seen then seen else seen ++ [k]).Nodup := by
  by_cases hk : k ∈ seen
  · simpa [hk]
  · simp only [if_neg hk]
    exact List.Nodup.append h (List.nodup_singleton k)
      (by simpa [List.disjoint_singleton] using hk)

theorem foldl_dedup_nodup : ∀ (occs seen : List String), seen.Nodup →
    (occs.foldl (fun seen k => if k ∈ seen then seen else seen ++ [k]) seen).Nodup
  | [], _, h => h
  | t :: occs, seen, h => by
      rw [List.foldl_cons]
      exact foldl_dedup_nodup occs _ (dedup_step_nodup seen t h)

theorem mem_foldl_dedup (q : String) : ∀ (occs seen : List String),
    (q ∈ occs.foldl (fun seen k => if k ∈ seen then seen else seen ++ [k]) seen
      ↔ q ∈ seen ∨ q ∈ occs)
  | [], seen => by simp
  | t :: occs, seen => by
      rw [List.foldl_cons, mem_foldl_dedup q occs]
      by_cases hq : q = t
      · subst hq
        by_cases hmem : q ∈ seen <;> simp [hmem]
      · by_cases hmem : t ∈ seen <;> simp [hmem, hq]

theorem occCount_pos_iff (q : String) : ∀ (occs : List String),
    0 < occCount q occs ↔ q ∈ occs
  | [] => by simp [occCount]
  | t :: occs => by
      by_cases h : t = q
      · subst h
        simp [occCount]
      · simp [occCount, h, Ne.symm h, occCount_pos_iff q occs]

theorem foldl_bump_pos : ∀ (occs : List String) (acc : List (String × Nat)),
    (∀ p ∈ acc, 0 < p.2) → ∀ p ∈ occs.foldl (fun a k => bump k a) acc, 0 < p.2
  | [], acc, h => h
  | t :: occs, acc, h => by
      rw [List.foldl_cons]
      exact foldl_bump_pos occs (bump t acc) (bump_pos t acc h)

/-- The table built from a key stream: keys are the distinct encountered
keys in first-encountered order, counts are the occurrence counts. -/
theorem buildTable_map_fst (occs : List String) :
    (buildTable occs).map Prod.fst = dedupFirst occs :=
  foldl_bump_map_fst occs []

theorem buildTable_nodup (occs : List String) :
    ((buildTable occs).map Prod.fst).Nodup := by
  rw [buildTable_map_fst]
  exact foldl_dedup_nodup occs [] List.nodup_nil

theorem buildTable_tblCount (q : String) (occs : List String) :
    tblCount q (buildTable occs) = occCount q occs := by
  simpa [tblCount] using foldl_bump_tblCount q occs []

/-- Membership in the frequency table is exactly a positive occurrence
count. -/
theorem mem_buildTable_iff (occs : List String) (q : String) (n : Nat) :
    (q, n) ∈ buildTable occs ↔ occCount q occs = n ∧ 0 < n := by
  constructor
  · intro h
    have hmem := (mem_table_iff (buildTable_nodup occs) q n).mp h
    have hpos : 0 < n :=
      foldl_bump_pos occs [] (by simp) (q, n) h
    exact ⟨by rw [← buildTable_tblCount q occs, hmem.2], hpos⟩
  · rintro ⟨hcount, hpos⟩
    have hq : q ∈ occs := (occCount_pos_iff q occs).mp (hcount ▸ hpos)
    have hqmem : q ∈ (buildTable occs).map Prod.fst := by
      rw [buildTable_map_fst]
      exact (mem_foldl_dedup q occs []).mpr (Or.inr hq)
    exact (mem_table_iff (buildTable_nodup occs) q n).mpr
      ⟨hqmem, by rw [buildTable_tblCount q occs, hcount]⟩

/-! ## The stable descending sort of `_get_constraints_summary` -/

theorem mem_insertDesc {x p : String × Nat} : ∀ {l : List (String × Nat)},
    p ∈ insertDesc x l → p = x ∨ p ∈ l
  | [], h => by simpa [insertDesc] using h
  | y :: ys, h => by
      by_cases hc : y.2 ≤ x.2
      · rcases (by simpa [insertDesc, hc] using h : p = x ∨ p = y ∨ p ∈ ys) with h | h | h
        · exact Or.inl h
        · exact Or.inr (by simp [h])
        · exact Or.inr (by simp [h])
      · rcases (by simpa [insertDesc, hc] using h : p = y ∨ p ∈ insertDesc x ys) with h | h
        · exact Or.inr (by simp [h])
        · rcases mem_insertDesc h with h | h
          · exact Or.inl h
          · exact Or.inr (List.mem_cons_of_mem _ h)

/-- Inserting preserves the descending pairwise order. -/
theorem pairwise_insertDesc {x : String × Nat} : ∀ {l : List (String × Nat)},
    List.Pairwise (fun a b => b.2 ≤ a.2) l →
    List.Pairwise (fun a b => b.2 ≤ a.2) (insertDesc x l)
  | [], _ => by simp [insertDesc]
  | y :: ys, h => by
      rcases List.pairwise_cons.mp h with ⟨hy, hys⟩
      by_cases hc : y.2 ≤ x.2
      · simp only [insertDesc, if_pos hc]
        refine List.pairwise_cons.mpr ⟨?_, h⟩
        intro b hb
        rcases List.mem_cons.mp hb with rfl | hb
        · exact hc
        · exact le_trans (hy b hb) hc
      · simp only [insertDesc, if_neg hc]
        refine List.pairwise_cons.mpr ⟨?_, pairwise_insertDesc hys⟩
        intro b hb
        rcases mem_insertDesc hb with rfl | hb
        · exact le_of_lt (Nat.lt_of_not_le hc)
        · exact hy b hb

/-- The output of `sortDescByCount` is descending on the counts. -/
theorem sortDescByCount_pairwise (l : List (String × Nat)) :
    List.Pairwise (fun a b => b.2 ≤ a.2) (sortDescByCount l) := by
  induction l with
  | nil => simp [sortDescByCount]
  | cons x xs ih =>
      exact pairwise_insertDesc ih

/-- Stability of a single insertion: for every count value, the
subsequence carrying that count is unchanged when the inserted element is
viewed as prepended. -/
theorem insertDesc_filter (x : String × Nat) (n : Nat) : ∀ (l : List (String × Nat)),
    (insertDesc x l).filter (fun p => p.2 == n)
      = (x :: l).filter (fun p => p.2 == n)
  | [] => rfl
  | y :: ys => by
      by_cases hc : y.2 ≤ x.2
      · simp [insertDesc, hc]
      · have ih := insertDesc_filter x n ys
        have hlt : x.2 < y.2 := Nat.lt_of_not_le hc
        simp only [insertDesc, if_neg hc]
        by_cases hx : x.2 = n
        · have hy : ¬ y.2 = n := by omega
          simp [List.filter_cons, hx, hy, ih]
        · by_cases hy : y.2 = n <;> simp [List.filter_cons, hx, hy, ih]

/-- Stability and permutation of the whole sort: for every count value,
the elements carrying that count appear in the sorted output exactly in
their original (first-encountered) order. -/
theorem sortDescByCount_filter (n : Nat) : ∀ (l : List (String × Nat)),
    (sortDescByCount l).filter (fun p => p.2 == n) = l.filter (fun p => p.2 == n)
  | [] => rfl
  | x :: xs => by
      have h : sortDescByCount (x :: xs) = insertDesc x (sortDescByCount xs) := rfl
      rw [h, insertDesc_filter]
      by_cases hx : x.2 = n <;>
        simp [List.filter_cons, hx, sortDescByCount_filter n xs]

/-! ## Unfolding lemmas for the summaries and the reflection text -/

theorem _get_decisions_summary_ne {ds : List Decision} (h : ds ≠ []) :
    _get_decisions_summary ds
      = pyJoin "\n"
          (("Total decisions: " ++ toString ds.length ++ "\n") :: enumLines 1 (lastN 5 ds)) := by
  simp [_get_decisions_summary, h]

theorem constraintPatterns_nil : constraintPatterns ([] : List Decision) = [] := rfl

theorem keyOccs_eq_nil {ds : List Decision} (h : ∀ d ∈ ds, d.constraints = []) :
    keyOccs ds = [] := by
  induction ds with
  | nil => rfl
  | cons d ds ih =>
      have hd : d.constraints = [] := h d (List.mem_cons_self _ _)
      have ht := ih (fun d hd => h d (List.mem_cons_of_mem _ hd))
      simp [keyOccs, hd, ht]

theorem _get_constraints_summary_ne {ds : List Decision}
    (hds : ds ≠ []) (hp : constraintPatterns ds ≠ []) :
    _get_constraints_summary ds
      = pyJoin "\n"
          ("Your most common constraints:" ::
            ((sortDescByCount (constraintPatterns ds)).take 5).map bulletLine) := by
  simp [_get_constraints_summary, hds, hp]

/-- Any labelled line of the reflection text occurs inside it. -/
theorem containsS_decision_history_text {s : String} (d : Decision) (draft : String)
    (h : s ∈ dhtSegments d draft) :
    ContainsS (decision_history_text d draft) s :=
  containsS_app_left _ (containsS_app_right _ (containsS_pyJoin _ h))

/-! ## Claim C1 -/

/-- Claim C1 (code bug evidence): the AI-facing context of
`render_ai_insights` is NOT computed only from SHAREABLE decisions.  The
two stores below agree on their SHAREABLE decisions, yet produce
different contexts, and the PRIVATE title reaches the context verbatim —
contradicting the privacy promise the application itself prints. -/
theorem private_decisions_leak_into_ai_context :
    get_all_decisions [sharedDecision, privDecision] (some .SHAREABLE)
      = get_all_decisions [sharedDecision] (some .SHAREABLE)
    ∧ ai_insights_context [sharedDecision, privDecision]
        ≠ ai_insights_context [sharedDecision]
    ∧ containsB (ai_insights_context [sharedDecision, privDecision]).1 "PRIVATE-TITLE" = true := by
  refine ⟨by rfl, by decide, by rfl⟩

/-! ## Claim C2 -/

set_option maxRecDepth 8000 in
/-- Claim C2 counterexample: the decisions summary does not contain the
first `min(5, length)` decisions of the sequence.  In a six-decision
store, the first (most recently created) decision is among the first
five, yet its title is absent from the summary: the code slices
`decisions[-5:]`, the LAST five list elements. -/
theorem decisions_summary_not_first_five :
    "TITLE-ZERO" ∈ (sixStore.take 5).map Decision.title
    ∧ containsB (_get_decisions_summary sixStore) "TITLE-ZERO" = false := by
  refine ⟨by decide, by rfl⟩

/-- Claim C2 amended: for a non-empty sequence the summary is determined
by the length and the LAST `min(5, length)` decisions of the sequence
(under the most-recent-first store order these are the oldest five), and
for the `i`-th decision of that window it emits the numbered title line,
the goal, the final choice and the reasoning excerpt. -/
theorem decisions_summary_window (ds₁ ds₂ : List Decision)
    (h₁ : ds₁ ≠ []) (hlen : ds₁.length = ds₂.length) (hlast : lastN 5 ds₁ = lastN 5 ds₂) :
    _get_decisions_summary ds₁ = _get_decisions_summary ds₂
    ∧ ∀ i (hi : i < (lastN 5 ds₁).length),
        ContainsS (_get_decisions_summary ds₁)
          ("\nDecision " ++ toString (1 + i) ++ ": " ++ ((lastN 5 ds₁).get ⟨i, hi⟩).title)
        ∧ ContainsS (_get_decisions_summary ds₁)
            ("Goal: " ++ ((lastN 5 ds₁).get ⟨i, hi⟩).goal)
        ∧ ContainsS (_get_decisions_summary ds₁)
            ("Choice: " ++ ((lastN 5 ds₁).get ⟨i, hi⟩).final_choice)
        ∧ ContainsS (_get_decisions_summary ds₁)
            ("Reasoning: " ++ strTake ((lastN 5 ds₁).get ⟨i, hi⟩).reasoning 200 ++ "...") := by
  have h₂ : ds₂ ≠ [] := by
    intro h
    subst h
    exact h₁ (List.length_eq_zero.mp (by simpa using hlen))
  constructor
  · rw [_get_decisions_summary_ne h₁, _get_decisions_summary_ne h₂, hlen, hlast]
  · intro i hi
    have lines := enumLines_get (lastN 5 ds₁) 1 i hi
    rw [_get_decisions_summary_ne h₁]
    exact ⟨containsS_pyJoin _ (List.mem_cons_of_mem _ lines.1),
           containsS_pyJoin _ (List.mem_cons_of_mem _ lines.2.1),
           containsS_pyJoin _ (List.mem_cons_of_mem _ lines.2.2.1),
           containsS_pyJoin _ (List.mem_cons_of_mem _ lines.2.2.2)⟩

theorem decisions_summary_window_witness :
    (sixStore ≠ [] ∧ sixStore.length = sixStoreAlt.length ∧ lastN 5 sixStore = lastN 5 sixStoreAlt)
    ∧ _get_decisions_summary sixStore = _get_decisions_summary sixStoreAlt :=
  ⟨⟨by decide, by decide, by decide⟩,
   (decisions_summary_window sixStore sixStoreAlt (by decide) (by decide) (by decide)).1⟩

/-! ## Claim C3 -/

/-- Claim C3 counterexample: the truncation marker is appended even when
the reasoning does not exceed the 200-character budget.  A 5-character
reasoning still ends in the marker, because the f-string places a literal
`...` after `reasoning[:200]` unconditionally. -/
theorem reasoning_marker_unconditional :
    shortReasoningDecision.reasoning.length ≤ 200
    ∧ _get_decisions_summary [shortReasoningDecision]
        = "Total decisions: 1\n\n\nDecision 1: T\nGoal: G\nChoice: C\nReasoning: short..." :=
  ⟨by decide, by rfl⟩

/-- Claim C3 amended: for every decision of the summarised window, the
emitted excerpt is the reasoning truncated to 200 characters with the
marker appended in every case; when the reasoning exceeds the budget the
visible excerpt is exactly 200 characters, and when it fits the excerpt
is the whole reasoning. -/
theorem reasoning_excerpt_spec (ds : List Decision) (d : Decision)
    (hne : ds ≠ []) (hd : d ∈ lastN 5 ds) :
    ContainsS (_get_decisions_summary ds)
      ("Reasoning: " ++ strTake d.reasoning 200 ++ "...")
    ∧ (strTake d.reasoning 200).length = min d.reasoning.length 200
    ∧ (200 ≤ d.reasoning.length → (strTake d.reasoning 200).length = 200)
    ∧ (d.reasoning.length ≤ 200 → strTake d.reasoning 200 = d.reasoning) := by
  obtain ⟨⟨i, hi⟩, rfl⟩ := List.mem_iff_get.mp hd
  refine ⟨?_, ?_, ?_, ?_⟩
  · rw [_get_decisions_summary_ne hne]
    exact containsS_pyJoin _ (List.mem_cons_of_mem _ (enumLines_get _ 1 i hi).2.2.2)
  · rw [strTake_length]
    omega
  · intro h
    rw [strTake_length]
    omega
  · intro h
    exact strTake_of_le h

theorem reasoning_excerpt_spec_witness :
    ([shortReasoningDecision] ≠ [] ∧ shortReasoningDecision ∈ lastN 5 [shortReasoningDecision])
    ∧ ContainsS (_get_decisions_summary [shortReasoningDecision])
        ("Reasoning: " ++ strTake shortReasoningDecision.reasoning 200 ++ "...") :=
  ⟨⟨by decide, by decide⟩,
   (reasoning_excerpt_spec [shortReasoningDecision] shortReasoningDecision
      (by decide) (by decide)).1⟩

/-! ## Claim C4 -/

/-- Claim C4: `_get_constraints_summary` builds a frequency table keyed by
the rendered `(category, severity)` pair over all constraints of all
supplied decisions (membership is exactly a positive occurrence count,
keys in first-encountered order), sorts it descending by count — stably,
so ties keep first-encountered order (the filter characterisation) — and
renders the top five entries as the bullet lines. -/
theorem constraints_summary_spec (ds : List Decision)
    (hp : constraintPatterns ds ≠ []) :
    (∀ q n, ((q, n) ∈ constraintPatterns ds ↔ occCount q (keyOccs ds) = n ∧ 0 < n))
    ∧ (constraintPatterns ds).map Prod.fst = dedupFirst (keyOccs ds)
    ∧ List.Pairwise (fun a b => b.2 ≤ a.2) (sortDescByCount (constraintPatterns ds))
    ∧ (∀ n, (sortDescByCount (constraintPatterns ds)).filter (fun p => p.2 == n)
        = (constraintPatterns ds).filter (fun p => p.2 == n))
    ∧ _get_constraints_summary ds
        = pyJoin "\n"
            ("Your most common constraints:" ::
              ((sortDescByCount (constraintPatterns ds)).take 5).map bulletLine) := by
  have hds : ds ≠ [] := by
    intro h
    subst h
    exact hp constraintPatterns_nil
  refine ⟨?_, ?_, sortDescByCount_pairwise _, fun n => sortDescByCount_filter n _,
    _get_constraints_summary_ne hds hp⟩
  · intro q n
    rw [constraintPatterns_eq_buildTable]
    exact mem_buildTable_iff (keyOccs ds) q n
  · rw [constraintPatterns_eq_buildTable]
    exact buildTable_map_fst (keyOccs ds)

theorem constraints_summary_spec_witness :
    constraintPatterns tieStore ≠ []
    ∧ _get_constraints_summary tieStore
        = pyJoin "\n"
            ("Your most common constraints:" ::
              ((sortDescByCount (constraintPatterns tieStore)).take 5).map bulletLine) :=
  ⟨by decide, (constraints_summary_spec tieStore (by decide)).2.2.2.2⟩

/-! ## Claim C5 -/

/-- Claim C5: the caller of the reflection service treats a returned
string as a failure signal — displaying it as an error instead of
offering it as a usable reflection — exactly when the string contains the
substring `failed` case-insensitively. -/
theorem reflection_failure_classification (s : String) :
    (handle_ai_reflection s = .shownAsError s ↔ ContainsS (strLower s) "failed")
    ∧ (handle_ai_reflection s = .offered s ↔ ¬ ContainsS (strLower s) "failed") := by
  by_cases h : containsB (strLower s) "failed" = true
  · have hc : ContainsS (strLower s) "failed" := (containsB_iff _ _).mp h
    have hh : handle_ai_reflection s = .shownAsError s := by
      simp [handle_ai_reflection, h]
    rw [hh]
    simp [hc]
  · have hb : containsB (strLower s) "failed" = false := by simpa using h
    have hc : ¬ ContainsS (strLower s) "failed" := fun hcc => by
      rw [(containsB_iff _ _).mpr hcc] at hb
      cases hb
    have hh : handle_ai_reflection s = .offered s := by
      simp [handle_ai_reflection, hb]
    rw [hh]
    simp [hc]

/-! ## Claim C6 -/

/-- Claim C6: when the underlying model call raises, `reflect` catches
the exception and returns the explanatory failure string beginning
`Reflection AI failed: ` instead of propagating it; in this embedding
`reflect` is a total function, so no exception ever reaches the caller. -/
theorem reflect_wraps_model_errors (key msg : String) :
    reflect true (some key) (.raised msg) = "Reflection AI failed: " ++ msg
    ∧ (reflect true (some key) (.raised msg)).data
        = "Reflection AI failed: ".data ++ msg.data := by
  constructor
  · rfl
  · rw [show reflect true (some key) (.raised msg) = "Reflection AI failed: " ++ msg from rfl,
      str_data_append]

/-! ## Claim C7 -/

/-- Claim C7 counterexample: there is no single fixed placeholder for
all no-constraint inputs — the empty store and a store holding one
constraint-free decision both have no constraints anywhere, yet the
summary returns two different placeholder strings. -/
theorem constraints_placeholder_not_single :
    ([] : List Decision).all (fun d => d.constraints.isEmpty) = true
    ∧ [blankDecision].all (fun d => d.constraints.isEmpty) = true
    ∧ _get_constraints_summary [] = "No constraints recorded yet."
    ∧ _get_constraints_summary [blankDecision] = "No constraint patterns found."
    ∧ _get_constraints_summary [] ≠ _get_constraints_summary [blankDecision] :=
  ⟨rfl, rfl, rfl, rfl, by decide⟩

/-- Claim C7 amended: whenever no constraint exists in any supplied
decision, `_get_constraints_summary` returns a fixed non-empty
placeholder — one placeholder for the empty sequence and another for a
non-empty sequence without constraints — and never the empty string or
an error. -/
theorem constraints_summary_placeholder_spec (ds : List Decision)
    (h : ∀ d ∈ ds, d.constraints = []) :
    _get_constraints_summary ds
      = (if ds = [] then "No constraints recorded yet." else "No constraint patterns found.")
    ∧ _get_constraints_summary ds ≠ "" := by
  have hpat : constraintPatterns ds = [] := by
    rw [constraintPatterns_eq_buildTable, keyOccs_eq_nil h]
    rfl
  rcases eq_or_ne ds [] with rfl | hds
  · exact ⟨rfl, by decide⟩
  · have hsum : _get_constraints_summary ds = "No constraint patterns found." := by
      simp [_get_constraints_summary, hds, hpat]
    rw [hsum]
    exact ⟨by simp [hds], by decide⟩

theorem constraints_summary_placeholder_spec_witness :
    [blankDecision].all (fun d => d.constraints.isEmpty) = true
    ∧ _get_constraints_summary [blankDecision] ≠ "" :=
  ⟨rfl,
   (constraints_summary_placeholder_spec [blankDecision]
      (fun d hd => by rcases List.mem_singleton.mp hd with rfl; rfl)).2⟩

/-! ## Claim C8 -/

/-- Claim C8: `_get_decisions_summary` applied to the empty sequence
returns a fixed non-empty placeholder string. -/
theorem decisions_summary_empty_placeholder :
    _get_decisions_summary [] = "No decisions recorded yet."
    ∧ "No decisions recorded yet." ≠ "" :=
  ⟨rfl, by decide⟩

/-! ## Claim C9 -/

/-- Claim C9: the text block sent to the reflection service is a function
of the one decision (and the current draft reflection) and contains,
each introduced by its label, the title, goal, description, final
choice, reasoning, expected outcome, the joined constraint descriptions
and the joined alternative option labels, as well as every individual
constraint description and alternative option label, and the draft
reflection. -/
theorem decision_history_text_spec (d : Decision) (draft : String) :
    dhtSegments d draft
      = [ "Decision: " ++ d.title,
          "Goal: " ++ d.goal,
          "Description: " ++ d.description,
          "Final Choice: " ++ d.final_choice,
          "Reasoning: " ++ d.reasoning,
          "Expected Outcome: " ++ pyShowOpt d.expected_outcome,
          "Constraints: " ++ pyJoin ", " (d.constraints.map Constraint.description),
          "Alternatives Considered: " ++ pyJoin ", " (d.alternatives.map Alternative.option),
          "Reflection: " ++ draft ]
    ∧ (∀ s ∈ dhtSegments d draft, ContainsS (decision_history_text d draft) s)
    ∧ (∀ c ∈ d.constraints, ContainsS (decision_history_text d draft) c.description)
    ∧ (∀ a ∈ d.alternatives, ContainsS (decision_history_text d draft) a.option) := by
  refine ⟨rfl, fun s hs => containsS_decision_history_text d draft hs, ?_, ?_⟩
  · intro c hc
    have h₁ : ContainsS (decision_history_text d draft)
        ("Constraints: " ++ pyJoin ", " (d.constraints.map Constraint.description)) :=
      containsS_decision_history_text d draft (by simp [dhtSegments])
    have h₂ : ContainsS ("Constraints: " ++ pyJoin ", " (d.constraints.map Constraint.description))
        c.description :=
      containsS_app_right _ (containsS_pyJoin _ (List.mem_map_of_mem _ hc))
    exact containsS_trans h₁ h₂
  · intro a ha
    have h₁ : ContainsS (decision_history_text d draft)
        ("Alternatives Considered: "
          ++ pyJoin ", " (d.alternatives.map Alternative.option)) :=
      containsS_decision_history_text d draft (by simp [dhtSegments])
    have h₂ : ContainsS ("Alternatives Considered: "
          ++ pyJoin ", " (d.alternatives.map Alternative.option))
        a.option :=
      containsS_app_right _ (containsS_pyJoin _ (List.mem_map_of_mem _ ha))
    exact containsS_trans h₁ h₂

theorem decision_history_text_spec_witness :
    ContainsS (decision_history_text c9Decision "ref") ("Goal: " ++ c9Decision.goal)
    ∧ ContainsS (decision_history_text c9Decision "ref") "CDESC"
    ∧ ContainsS (decision_history_text c9Decision "ref") "ALT-OPTION" := by
  refine ⟨?_, ?_, ?_⟩
  · exact (decision_history_text_spec c9Decision "ref").2.1 _ (by simp [dhtSegments])
  · exact (decision_history_text_spec c9Decision "ref").2.2.1
      ⟨"Risk", "CDESC", "Medium"⟩ (by decide)
  · exact (decision_history_text_spec c9Decision "ref").2.2.2
      ⟨"ALT-OPTION", [], [], "why"⟩ (by decide)

/-! ## Claim C10 -/

/-- Claim C10: with the service disabled or the API key missing,
`reflect` returns the fixed disabled message for every input; that
message does not contain `failed` case-insensitively, so the caller
classifies it as a usable reflection rather than a failure. -/
theorem reflect_disabled_is_usable (enabled : Bool) (api_key : Option String) (call : GenCall)
    (h : enabled = false ∨ api_key = none) :
    reflect enabled api_key call = "Reflection AI disabled or API key missing."
    ∧ handle_ai_reflection (reflect enabled api_key call)
        = .offered "Reflection AI disabled or API key missing."
    ∧ containsB (strLower "Reflection AI disabled or API key missing.") "failed" = false := by
  have hr : reflect enabled api_key call = "Reflection AI disabled or API key missing." := by
    rcases h with rfl | rfl
    · rfl
    · cases enabled <;> rfl
  refine ⟨hr, ?_, by rfl⟩
  rw [hr]
  rfl

theorem reflect_disabled_is_usable_witness :
    ((false = false) ∨ ((none : Option String) = none))
    ∧ reflect false none (.ok "text") = "Reflection AI disabled or API key missing."
    ∧ handle_ai_reflection (reflect false none (.ok "text"))
        = .offered "Reflection AI disabled or API key missing." :=
  ⟨Or.inl rfl,
   (reflect_disabled_is_usable false none (.ok "text") (Or.inl rfl)).1,
   (reflect_disabled_is_usable false none (.ok "text") (Or.inl rfl)).2.1⟩

end NeuroLinker
